import Mathlib

/-!
Shallow embedding of the logging adapter in `src/templates/logging/logging.py`
(`UnifiedExperiment` and `UnifiedLogger`), together with theorems checking the
specification's statements about it.

Modelling choices:
* A Python log-entry dictionary is an association list `List (String × Value)`;
  the Python `dict` invariant (no duplicate keys) appears as a `Nodup`
  hypothesis where a statement needs it.
* Opaque backend objects (matplotlib figures, PIL images, numpy arrays) are
  represented by identifiers; a matplotlib `Axes` carries the identifier of the
  figure returned by its `get_figure()`.
* Backend interactions (`add_scalar`, `add_figure`, `add_image`, `wandb.Run.log`,
  `wandb.login`, logger construction, `log_hyperparams`, `log_metrics`, `save`,
  `wandb.finish`) are recorded as a trace of `Call` values.
-/

namespace TemplateLogging

/-- Runtime values that can appear in a log entry: numeric scalars, strings,
matplotlib `Axes`/`Figure`, PIL images, numpy arrays, `wandb.Image` wrappers,
and nested dictionaries. -/
inductive Value where
  | num (x : ℚ)
  | str (s : String)
  | axes (figId : Nat)
  | figure (figId : Nat)
  | pil (imgId : Nat)
  | arr (arrId : Nat)
  | wandbImg (v : Value)
  | dict (entries : List (String × Value))
deriving Repr

/-- The image tensor passed to TensorBoard `add_image`: either a numpy array
given directly, or `np.array` applied to a PIL image. -/
inductive ImgTensor where
  | ofArray (arrId : Nat)
  | ofPil (imgId : Nat)
deriving Repr

/-- One observable interaction with an underlying backend object. -/
inductive Call where
  | tbAddFigure (tag : String) (figId : Nat) (globalStep : Option Value)
  | tbAddImage (tag : String) (imgTensor : ImgTensor) (globalStep : Option Value)
      (dataformats : String)
  | tbAddScalar (tag : String) (scalarValue : Value) (globalStep : Option Value)
  | wandbLog (data : List (String × Value)) (step : Option Value)
  | wandbLogin
  | mkWandbLogger
  | mkTensorBoardLogger
  | loggerLogHyperparams (params : List (String × Value))
  | loggerLogMetrics (metrics : List (String × Value)) (step : Option Value)
  | loggerSave
  | wandbFinish
deriving Repr

/-- The keys of an association-list dictionary, in insertion order. -/
def keys (m : List (String × Value)) : List String :=
  m.map Prod.fst

/-- Python dictionary lookup `m[k]` (as an `Option`). -/
def lookupKey (k : String) : List (String × Value) → Option Value
  | [] => none
  | (k2, v) :: rest => if k2 = k then some v else lookupKey k rest

/-- Python `m.pop(k, None)`: returns the value bound to `k` (if any) and the
dictionary with that binding removed. -/
def popKey (k : String) : List (String × Value) → Option Value × List (String × Value)
  | [] => (none, [])
  | (k2, v) :: rest =>
    if k2 = k then (some v, rest)
    else
      let r := popKey k rest
      (r.1, (k2, v) :: r.2)

/-- Python dictionary assignment `m[k] = v`: overwrites in place if the key is
present, appends otherwise. -/
def dictInsert (m : List (String × Value)) (k : String) (v : Value) :
    List (String × Value) :=
  if k ∈ keys m then m.map (fun p => if p.1 = k then (p.1, v) else p)
  else m ++ [(k, v)]

/-- Python `m.update(n)`: assign each binding of `n` into `m` in order. -/
def dictUpdate (m n : List (String × Value)) : List (String × Value) :=
  n.foldl (fun acc p => dictInsert acc p.1 p.2) m

/-- The new-key computation of `_flatten_dict`:
`f"{parent_key}{separator}{k}" if parent_key else k`. -/
def joinKey (parentKey sep k : String) : String :=
  if parentKey = "" then k else parentKey ++ sep ++ k

/-- The loop body of `UnifiedExperiment._flatten_dict`, with the accumulated
`items` dictionary made explicit.  For each binding `(k, v)` the new key is
`parentKey ++ separator ++ k` (or `k` when `parentKey` is empty); nested
dictionaries are flattened recursively and merged via `items.update`. -/
def flattenGo :
    List (String × Value) → String → String → List (String × Value) →
      List (String × Value)
  | [], _, _, items => items
  | (k, v) :: rest, parentKey, sep, items =>
    let newKey := joinKey parentKey sep k
    match v with
    | .dict d => flattenGo rest parentKey sep (dictUpdate items (flattenGo d newKey sep []))
    | v => flattenGo rest parentKey sep (dictInsert items newKey v)

/-- `UnifiedExperiment._flatten_dict(d, parent_key, separator)`. -/
def flattenDict (d : List (String × Value)) (parentKey sep : String) :
    List (String × Value) :=
  flattenGo d parentKey sep []

/-- `np.isscalar` on the modelled value universe: numbers and strings are
scalars; figures, axes, images, arrays, dictionaries and wrapper objects
are not. -/
def npIsScalar : Value → Bool
  | .num _ => true
  | .str _ => true
  | _ => false

/-- `isinstance(v, str)`. -/
def Value.isStr : Value → Bool
  | .str _ => true
  | _ => false

/-- `isinstance(v, dict)`. -/
def Value.isDict : Value → Bool
  | .dict _ => true
  | _ => false

/-- The TensorBoard branch of `UnifiedExperiment.log` for a single flattened
leaf: `Axes` are replaced by their figure, then figures go to `add_figure`,
numpy arrays and PIL images to `add_image` (dataformats `"HWC"`), numeric
non-string scalars to `add_scalar`, and anything else is silently skipped. -/
def tbDispatch (tag : String) (v0 : Value) (step : Option Value) : List Call :=
  let v := match v0 with
    | .axes figId => Value.figure figId
    | w => w
  match v with
  | .figure figId => [Call.tbAddFigure tag figId step]
  | .arr arrId => [Call.tbAddImage tag (ImgTensor.ofArray arrId) step "HWC"]
  | .pil imgId => [Call.tbAddImage tag (ImgTensor.ofPil imgId) step "HWC"]
  | w => if npIsScalar w && !(Value.isStr w) then [Call.tbAddScalar tag w step] else []

/-- The TensorBoard branch of `UnifiedExperiment.log` over the whole flattened
dictionary, in insertion order. -/
def tbDispatchAll (flat : List (String × Value)) (step : Option Value) : List Call :=
  match flat with
  | [] => []
  | (k, v) :: rest => tbDispatch k v step ++ tbDispatchAll rest step

/-- The W&B branch of `UnifiedExperiment.log` for a single flattened value:
`Axes` are replaced by their figure, then figures and PIL images are wrapped
in `wandb.Image`; everything else is forwarded unchanged. -/
def wandbConvert (v0 : Value) : Value :=
  let v := match v0 with
    | .axes figId => Value.figure figId
    | w => w
  match v with
  | .figure figId => Value.wandbImg (Value.figure figId)
  | .pil imgId => Value.wandbImg (Value.pil imgId)
  | w => w

/-- The W&B conversion applied to every binding of the flattened dictionary. -/
def wandbConvertAll (flat : List (String × Value)) : List (String × Value) :=
  flat.map (fun p => (p.1, wandbConvert p.2))

/-- The global-step argument carried by a backend call (`none` = unset). -/
def stepArg : Call → Option Value
  | .tbAddFigure _ _ s => s
  | .tbAddImage _ _ s _ => s
  | .tbAddScalar _ _ s => s
  | .wandbLog _ s => s
  | .loggerLogMetrics _ s => s
  | _ => none

/-- `UnifiedExperiment.__init__(experiment, backend)`: stores the opaque
backend handle and the backend selector string. -/
structure UnifiedExperiment where
  experimentHandle : Nat
  backend : String

/-- `UnifiedExperiment.log(data)`: pops the reserved `"epoch"` key (its value
becomes the step), flattens the remaining entry with separator `"/"`, and
dispatches on the stored backend string.  Returns the backend-call trace and
the caller's dictionary as the call leaves it (`dict.pop` mutates the caller's
object; flattening builds a fresh dictionary). -/
def UnifiedExperiment.log (e : UnifiedExperiment) (data : List (String × Value)) :
    List Call × List (String × Value) :=
  let popped := popKey "epoch" data
  let step := popped.1
  let flat := flattenDict popped.2 "" "/"
  let calls :=
    if e.backend = "wandb" then [Call.wandbLog (wandbConvertAll flat) none]
    else if e.backend = "tensorboard" then tbDispatchAll flat step
    else []
  (calls, popped.2)

/-- The state of a successfully constructed `UnifiedLogger`: the backend
selector, which underlying Lightning logger was built, the wrapped
`UnifiedExperiment`, and the `log_base_model` flag. -/
structure UnifiedLogger where
  backend : String
  loggerBackend : String
  experiment : UnifiedExperiment
  log_base_model : Bool

/-- `UnifiedLogger.__init__(backend, ...)`: for `"wandb"` it logs in and builds
a `WandbLogger`, for `"tensorboard"` it builds a `TensorBoardLogger`, otherwise
it raises `ValueError` before constructing anything.  Returns the trace of
construction effects together with the state or the error. -/
def UnifiedLogger.init (backend : String) :
    List Call × Except String UnifiedLogger :=
  if backend = "wandb" then
    ([Call.wandbLogin, Call.mkWandbLogger],
      .ok ⟨backend, "wandb", ⟨0, backend⟩, !(backend == "tensorboard")⟩)
  else if backend = "tensorboard" then
    ([Call.mkTensorBoardLogger],
      .ok ⟨backend, "tensorboard", ⟨0, backend⟩, !(backend == "tensorboard")⟩)
  else
    ([], .error ("Unsupported backend: " ++ backend))

/-- `UnifiedLogger.log(data)`: delegates to the wrapped experiment; no field
of the logger is assigned. -/
def UnifiedLogger.log (st : UnifiedLogger) (data : List (String × Value)) :
    UnifiedLogger × (List Call × List (String × Value)) :=
  (st, st.experiment.log data)

/-- `UnifiedLogger.log_hyperparams(params)`: forwards to the underlying
logger's `log_hyperparams` unless `log_base_model` is false. -/
def UnifiedLogger.log_hyperparams (st : UnifiedLogger)
    (params : List (String × Value)) : UnifiedLogger × List Call :=
  (st, if st.log_base_model then [Call.loggerLogHyperparams params] else [])

/-- `UnifiedLogger.log_metrics(metrics, step)`: forwards directly. -/
def UnifiedLogger.log_metrics (st : UnifiedLogger)
    (metrics : List (String × Value)) (step : Option Value) :
    UnifiedLogger × List Call :=
  (st, [Call.loggerLogMetrics metrics step])

/-- Whether the constructed Lightning logger has a `save` attribute; both
`WandbLogger` and `TensorBoardLogger` inherit `save` from `Logger`. -/
def loggerHasSave (loggerBackend : String) : Bool :=
  loggerBackend == "wandb" || loggerBackend == "tensorboard"

/-- `UnifiedLogger.save()`: forwards when the underlying logger has `save`. -/
def UnifiedLogger.save (st : UnifiedLogger) : UnifiedLogger × List Call :=
  (st, if loggerHasSave st.loggerBackend then [Call.loggerSave] else [])

/-- `UnifiedLogger.close()`: calls `wandb.finish()` when the backend is
`"wandb"`, otherwise does nothing. -/
def UnifiedLogger.close (st : UnifiedLogger) : UnifiedLogger × List Call :=
  (st, if st.backend = "wandb" then [Call.wandbFinish] else [])

/-- Specification-side flattening, written from the spec's words: every nested
mapping is recursively merged into the top level in traversal order, with each
nested key renamed to `<parent_key><separator><child_key>`, and leaves kept
as they are (merging is plain concatenation; the spec leaves key collisions
undefined). -/
def specFlatten :
    List (String × Value) → String → String → List (String × Value)
  | [], _, _ => []
  | (k, v) :: rest, parentKey, sep =>
    let newKey := joinKey parentKey sep k
    match v with
    | .dict d => specFlatten d newKey sep ++ specFlatten rest parentKey sep
    | v => (newKey, v) :: specFlatten rest parentKey sep

/-- All leaf (non-dictionary) values of a nested entry, in traversal order. -/
def leafValues : List (String × Value) → List Value
  | [] => []
  | (_, v) :: rest =>
    match v with
    | .dict d => leafValues d ++ leafValues rest
    | v => v :: leafValues rest

theorem keys_append (a b : List (String × Value)) :
    keys (a ++ b) = keys a ++ keys b := by
  simp [keys]

theorem dictInsert_of_not_mem (m : List (String × Value)) (k : String) (v : Value)
    (h : k ∉ keys m) : dictInsert m k v = m ++ [(k, v)] := by
  simp [dictInsert, h]

theorem dictUpdate_of_disjoint (n : List (String × Value)) :
    ∀ m : List (String × Value), (keys m ++ keys n).Nodup →
      dictUpdate m n = m ++ n := by
  induction n with
  | nil => intro m _; simp [dictUpdate]
  | cons p rest ih =>
    intro m h
    have hk : p.1 ∉ keys m := by
      intro hmem
      rw [List.nodup_append] at h
      exact h.2.2 hmem (by simp [keys])
    have h1 : dictInsert m p.1 p.2 = m ++ [p] := by
      rw [dictInsert_of_not_mem m p.1 p.2 hk]
    have h2 : (keys (m ++ [p]) ++ keys rest).Nodup := by
      rw [keys_append]
      have : keys m ++ keys [p] ++ keys rest = keys m ++ (keys [p] ++ keys rest) :=
        List.append_assoc _ _ _
      rw [this]
      simpa [keys] using h
    calc dictUpdate m (p :: rest)
        = dictUpdate (dictInsert m p.1 p.2) rest := by simp [dictUpdate]
      _ = dictUpdate (m ++ [p]) rest := by rw [h1]
      _ = (m ++ [p]) ++ rest := ih (m ++ [p]) h2
      _ = m ++ p :: rest := by simp

theorem flattenGo_nil (pk sep : String) (acc : List (String × Value)) :
    flattenGo [] pk sep acc = acc := by
  simp [flattenGo]

theorem flattenGo_cons_dict (k : String) (dd rest : List (String × Value))
    (pk sep : String) (acc : List (String × Value)) :
    flattenGo ((k, Value.dict dd) :: rest) pk sep acc =
      flattenGo rest pk sep (dictUpdate acc (flattenGo dd (joinKey pk sep k) sep [])) := by
  simp [flattenGo]

theorem flattenGo_cons_nondict (k : String) (v : Value) (rest : List (String × Value))
    (pk sep : String) (acc : List (String × Value)) (hv : Value.isDict v = false) :
    flattenGo ((k, v) :: rest) pk sep acc =
      flattenGo rest pk sep (dictInsert acc (joinKey pk sep k) v) := by
  cases v <;> simp_all [flattenGo, Value.isDict]

theorem specFlatten_nil (pk sep : String) : specFlatten [] pk sep = [] := by
  simp [specFlatten]

theorem specFlatten_cons_dict (k : String) (dd rest : List (String × Value))
    (pk sep : String) :
    specFlatten ((k, Value.dict dd) :: rest) pk sep =
      specFlatten dd (joinKey pk sep k) sep ++ specFlatten rest pk sep := by
  simp [specFlatten]

theorem specFlatten_cons_nondict (k : String) (v : Value) (rest : List (String × Value))
    (pk sep : String) (hv : Value.isDict v = false) :
    specFlatten ((k, v) :: rest) pk sep =
      (joinKey pk sep k, v) :: specFlatten rest pk sep := by
  cases v <;> simp_all [specFlatten, Value.isDict]

theorem leafValues_cons_dict (k : String) (dd rest : List (String × Value)) :
    leafValues ((k, Value.dict dd) :: rest) = leafValues dd ++ leafValues rest := by
  simp [leafValues]

theorem leafValues_cons_nondict (k : String) (v : Value) (rest : List (String × Value))
    (hv : Value.isDict v = false) :
    leafValues ((k, v) :: rest) = v :: leafValues rest := by
  cases v <;> simp_all [leafValues, Value.isDict]

theorem flattenGo_spec_step_nondict (n : Nat)
    (ih : ∀ (d : List (String × Value)) (pk sep : String) (acc : List (String × Value)),
      sizeOf d < n → (keys acc ++ keys (specFlatten d pk sep)).Nodup →
      flattenGo d pk sep acc = acc ++ specFlatten d pk sep)
    (k : String) (v : Value) (rest : List (String × Value)) (pk sep : String)
    (acc : List (String × Value)) (hrest : sizeOf rest < n)
    (hnd : (keys acc ++ keys (specFlatten ((k, v) :: rest) pk sep)).Nodup)
    (hv : Value.isDict v = false) :
    flattenGo ((k, v) :: rest) pk sep acc = acc ++ specFlatten ((k, v) :: rest) pk sep := by
  rw [specFlatten_cons_nondict k v rest pk sep hv] at hnd ⊢
  rw [flattenGo_cons_nondict k v rest pk sep acc hv]
  have hK : joinKey pk sep k ∉ keys acc := by
    intro hmem
    rw [List.nodup_append] at hnd
    exact hnd.2.2 hmem (by simp [keys])
  rw [dictInsert_of_not_mem acc (joinKey pk sep k) v hK]
  have hnd2 : (keys (acc ++ [(joinKey pk sep k, v)]) ++
      keys (specFlatten rest pk sep)).Nodup := by
    rw [keys_append, List.append_assoc]
    simpa [keys] using hnd
  rw [ih rest pk sep (acc ++ [(joinKey pk sep k, v)]) hrest hnd2]
  simp

theorem flattenGo_spec_step_dict (n : Nat)
    (ih : ∀ (d : List (String × Value)) (pk sep : String) (acc : List (String × Value)),
      sizeOf d < n → (keys acc ++ keys (specFlatten d pk sep)).Nodup →
      flattenGo d pk sep acc = acc ++ specFlatten d pk sep)
    (k : String) (dd rest : List (String × Value)) (pk sep : String)
    (acc : List (String × Value)) (hdd : sizeOf dd < n) (hrest : sizeOf rest < n)
    (hnd : (keys acc ++ keys (specFlatten ((k, Value.dict dd) :: rest) pk sep)).Nodup) :
    flattenGo ((k, Value.dict dd) :: rest) pk sep acc =
      acc ++ specFlatten ((k, Value.dict dd) :: rest) pk sep := by
  rw [specFlatten_cons_dict k dd rest pk sep] at hnd ⊢
  rw [flattenGo_cons_dict k dd rest pk sep acc]
  have hnd' : ((keys acc ++ keys (specFlatten dd (joinKey pk sep k) sep)) ++
      keys (specFlatten rest pk sep)).Nodup := by
    rw [List.append_assoc]
    simpa [keys_append] using hnd
  have hndS : (keys acc ++ keys (specFlatten dd (joinKey pk sep k) sep)).Nodup :=
    hnd'.of_append_left
  have hsub : flattenGo dd (joinKey pk sep k) sep [] =
      specFlatten dd (joinKey pk sep k) sep := by
    have h0 : (keys ([] : List (String × Value)) ++
        keys (specFlatten dd (joinKey pk sep k) sep)).Nodup := by
      simpa [keys] using hndS.of_append_right
    simpa using ih dd (joinKey pk sep k) sep [] hdd h0
  rw [hsub]
  rw [dictUpdate_of_disjoint (specFlatten dd (joinKey pk sep k) sep) acc hndS]
  have hnd2 : (keys (acc ++ specFlatten dd (joinKey pk sep k) sep) ++
      keys (specFlatten rest pk sep)).Nodup := by
    rw [keys_append]; exact hnd'
  rw [ih rest pk sep (acc ++ specFlatten dd (joinKey pk sep k) sep) hrest hnd2]
  simp

theorem flattenGo_eq_specFlatten (n : Nat) :
    ∀ (d : List (String × Value)) (pk sep : String) (acc : List (String × Value)),
      sizeOf d < n → (keys acc ++ keys (specFlatten d pk sep)).Nodup →
      flattenGo d pk sep acc = acc ++ specFlatten d pk sep := by
  induction n with
  | zero => intro d _ _ _ h _; exact absurd h (Nat.not_lt_zero _)
  | succ n ih =>
    intro d pk sep acc h hnd
    cases d with
    | nil => simp [flattenGo_nil, specFlatten_nil]
    | cons head rest =>
      obtain ⟨k, v⟩ := head
      have hrest : sizeOf rest < n := by
        simp only [List.cons.sizeOf_spec, Prod.mk.sizeOf_spec] at h
        have h1 : 1 ≤ sizeOf v := by cases v <;> simp_arith
        omega
      cases v with
      | dict dd =>
        have hdd : sizeOf dd < n := by
          simp only [List.cons.sizeOf_spec, Prod.mk.sizeOf_spec,
            Value.dict.sizeOf_spec] at h
          omega
        exact flattenGo_spec_step_dict n ih k dd rest pk sep acc hdd hrest hnd
      | num x =>
        exact flattenGo_spec_step_nondict n ih k _ rest pk sep acc hrest hnd
          (by simp [Value.isDict])
      | str s =>
        exact flattenGo_spec_step_nondict n ih k _ rest pk sep acc hrest hnd
          (by simp [Value.isDict])
      | axes i =>
        exact flattenGo_spec_step_nondict n ih k _ rest pk sep acc hrest hnd
          (by simp [Value.isDict])
      | figure i =>
        exact flattenGo_spec_step_nondict n ih k _ rest pk sep acc hrest hnd
          (by simp [Value.isDict])
      | pil i =>
        exact flattenGo_spec_step_nondict n ih k _ rest pk sep acc hrest hnd
          (by simp [Value.isDict])
      | arr i =>
        exact flattenGo_spec_step_nondict n ih k _ rest pk sep acc hrest hnd
          (by simp [Value.isDict])
      | wandbImg w =>
        exact flattenGo_spec_step_nondict n ih k _ rest pk sep acc hrest hnd
          (by simp [Value.isDict])

theorem flattenDict_eq_specFlatten (d : List (String × Value)) (pk sep : String)
    (h : (keys (specFlatten d pk sep)).Nodup) :
    flattenDict d pk sep = specFlatten d pk sep := by
  have := flattenGo_eq_specFlatten (sizeOf d + 1) d pk sep []
    (by omega) (by simpa [keys] using h)
  simpa [flattenDict] using this

theorem specFlatten_map_snd_bounded (n : Nat) :
    ∀ (d : List (String × Value)) (pk sep : String),
      sizeOf d < n → (specFlatten d pk sep).map Prod.snd = leafValues d := by
  induction n with
  | zero => intro d _ _ h; exact absurd h (Nat.not_lt_zero _)
  | succ n ih =>
    intro d pk sep h
    cases d with
    | nil => simp [specFlatten_nil, leafValues]
    | cons head rest =>
      obtain ⟨k, v⟩ := head
      have hrest : sizeOf rest < n := by
        simp only [List.cons.sizeOf_spec, Prod.mk.sizeOf_spec] at h
        have h1 : 1 ≤ sizeOf v := by cases v <;> simp_arith
        omega
      cases v with
      | dict dd =>
        have hdd : sizeOf dd < n := by
          simp only [List.cons.sizeOf_spec, Prod.mk.sizeOf_spec,
            Value.dict.sizeOf_spec] at h
          omega
        rw [specFlatten_cons_dict, leafValues_cons_dict, List.map_append,
          ih dd (joinKey pk sep k) sep hdd, ih rest pk sep hrest]
      | num x =>
        rw [specFlatten_cons_nondict k _ rest pk sep (by simp [Value.isDict]),
          leafValues_cons_nondict k _ rest (by simp [Value.isDict])]
        simp [ih rest pk sep hrest]
      | str s =>
        rw [specFlatten_cons_nondict k _ rest pk sep (by simp [Value.isDict]),
          leafValues_cons_nondict k _ rest (by simp [Value.isDict])]
        simp [ih rest pk sep hrest]
      | axes i =>
        rw [specFlatten_cons_nondict k _ rest pk sep (by simp [Value.isDict]),
          leafValues_cons_nondict k _ rest (by simp [Value.isDict])]
        simp [ih rest pk sep hrest]
      | figure i =>
        rw [specFlatten_cons_nondict k _ rest pk sep (by simp [Value.isDict]),
          leafValues_cons_nondict k _ rest (by simp [Value.isDict])]
        simp [ih rest pk sep hrest]
      | pil i =>
        rw [specFlatten_cons_nondict k _ rest pk sep (by simp [Value.isDict]),
          leafValues_cons_nondict k _ rest (by simp [Value.isDict])]
        simp [ih rest pk sep hrest]
      | arr i =>
        rw [specFlatten_cons_nondict k _ rest pk sep (by simp [Value.isDict]),
          leafValues_cons_nondict k _ rest (by simp [Value.isDict])]
        simp [ih rest pk sep hrest]
      | wandbImg w =>
        rw [specFlatten_cons_nondict k _ rest pk sep (by simp [Value.isDict]),
          leafValues_cons_nondict k _ rest (by simp [Value.isDict])]
        simp [ih rest pk sep hrest]

theorem specFlatten_map_snd (d : List (String × Value)) (pk sep : String) :
    (specFlatten d pk sep).map Prod.snd = leafValues d :=
  specFlatten_map_snd_bounded (sizeOf d + 1) d pk sep (by omega)

theorem specFlatten_of_flat (sep : String) :
    ∀ d : List (String × Value), (∀ p ∈ d, Value.isDict p.2 = false) →
      specFlatten d "" sep = d := by
  intro d
  induction d with
  | nil => intro _; simp [specFlatten_nil]
  | cons head rest ih =>
    intro h
    obtain ⟨k, v⟩ := head
    have hv : Value.isDict v = false := h (k, v) (by simp)
    rw [specFlatten_cons_nondict k v rest "" sep hv,
      ih (fun p hp => h p (by simp [hp]))]
    simp [joinKey]

theorem popKey_fst (k : String) :
    ∀ d : List (String × Value), (popKey k d).1 = lookupKey k d := by
  intro d
  induction d with
  | nil => simp [popKey, lookupKey]
  | cons head rest ih =>
    obtain ⟨k2, v⟩ := head
    by_cases h : k2 = k <;> simp [popKey, lookupKey, h, ih]

theorem lookupKey_eq_none_of_not_mem (k : String) :
    ∀ d : List (String × Value), k ∉ keys d → lookupKey k d = none := by
  intro d
  induction d with
  | nil => intro _; simp [lookupKey]
  | cons head rest ih =>
    intro h
    obtain ⟨k2, v⟩ := head
    simp [keys] at h
    simp [lookupKey, Ne.symm h.1, ih (by simp [keys, h.2])]

theorem popKey_snd_lookup_self (k : String) :
    ∀ d : List (String × Value), (keys d).Nodup →
      lookupKey k (popKey k d).2 = none := by
  intro d
  induction d with
  | nil => intro _; simp [popKey, lookupKey]
  | cons head rest ih =>
    intro hnd
    obtain ⟨k2, v⟩ := head
    simp only [keys, List.map_cons, List.nodup_cons] at hnd
    by_cases h : k2 = k
    · subst h
      simp only [popKey, if_pos rfl]
      exact lookupKey_eq_none_of_not_mem k2 rest hnd.1
    · simp [popKey, h, lookupKey, Ne.symm h]
      exact ih hnd.2

theorem popKey_snd_lookup_other (k k2 : String) (hne : k2 ≠ k) :
    ∀ d : List (String × Value),
      lookupKey k2 (popKey k d).2 = lookupKey k2 d := by
  intro d
  induction d with
  | nil => simp [popKey]
  | cons head rest ih =>
    obtain ⟨k3, v⟩ := head
    by_cases h : k3 = k
    · subst h
      simp [popKey, lookupKey, Ne.symm hne]
    · by_cases h2 : k3 = k2 <;> simp [popKey, lookupKey, h, h2, hne, ih]

theorem popKey_snd_of_absent (k : String) :
    ∀ d : List (String × Value), lookupKey k d = none → (popKey k d).2 = d := by
  intro d
  induction d with
  | nil => intro _; simp [popKey]
  | cons head rest ih =>
    intro h
    obtain ⟨k2, v⟩ := head
    by_cases h2 : k2 = k
    · simp [lookupKey, h2] at h
    · simp [lookupKey, h2] at h
      simp [popKey, h2, ih h]

theorem stepArg_tbDispatch (tag : String) (v : Value) (step : Option Value) :
    ∀ c ∈ tbDispatch tag v step, stepArg c = step := by
  intro c hc
  cases v <;> simp [tbDispatch, npIsScalar, Value.isStr] at hc <;> simp [hc, stepArg]

theorem stepArg_tbDispatchAll (step : Option Value) :
    ∀ (flat : List (String × Value)), ∀ c ∈ tbDispatchAll flat step, stepArg c = step := by
  intro flat
  induction flat with
  | nil => intro c hc; simp [tbDispatchAll] at hc
  | cons head rest ih =>
    intro c hc
    obtain ⟨k, v⟩ := head
    simp only [tbDispatchAll, List.mem_append] at hc
    rcases hc with hc | hc
    · exact stepArg_tbDispatch k v step c hc
    · exact ih c hc

/-- Claim C1 fails as stated on the wandb backend: for the entry
`[("epoch", 5), ("loss", 1)]` the adapter removes the epoch key from the
forwarded payload but issues the single backend call with its step argument
unset (`none`), not with step `5`. -/
theorem epoch_step_not_passed_on_wandb :
    (UnifiedExperiment.log ⟨0, "wandb"⟩ [("epoch", Value.num 5), ("loss", Value.num 1)]).1
      = [Call.wandbLog [("loss", Value.num 1)] none]
    ∧ stepArg (Call.wandbLog [("loss", Value.num 1)] none) ≠ some (Value.num 5) := by
  constructor
  · simp [UnifiedExperiment.log, popKey, flattenDict, flattenGo, dictInsert, keys,
      joinKey, wandbConvertAll, wandbConvert]
  · simp [stepArg]

/-- Claim C1 (amended): `log` removes the top-level `"epoch"` key from the
payload forwarded to the backend; on the tensorboard backend its value (or
`none` when absent) is passed as the global step of every backend call issued
for the entry, while on the wandb backend the single batched call is issued
with the step argument unset. -/
theorem epoch_step_extraction (d : List (String × Value)) (hnd : (keys d).Nodup) :
    (∀ c ∈ (UnifiedExperiment.log ⟨0, "tensorboard"⟩ d).1,
      stepArg c = lookupKey "epoch" d)
    ∧ (UnifiedExperiment.log ⟨0, "wandb"⟩ d).1
        = [Call.wandbLog (wandbConvertAll (flattenDict (popKey "epoch" d).2 "" "/")) none]
    ∧ lookupKey "epoch" (popKey "epoch" d).2 = none := by
  refine ⟨?_, ?_, popKey_snd_lookup_self "epoch" d hnd⟩
  · intro c hc
    have htr : (UnifiedExperiment.log ⟨0, "tensorboard"⟩ d).1
        = tbDispatchAll (flattenDict (popKey "epoch" d).2 "" "/") (popKey "epoch" d).1 := by
      simp [UnifiedExperiment.log]
    rw [htr] at hc
    rw [stepArg_tbDispatchAll _ _ c hc, popKey_fst]
  · simp [UnifiedExperiment.log]

/-- Witness for the amended claim C1 at the concrete entry
`[("epoch", 5), ("loss", 1)]`. -/
theorem epoch_step_extraction_witness :
    (UnifiedExperiment.log ⟨0, "wandb"⟩ [("epoch", Value.num 5), ("loss", Value.num 1)]).1
      = [Call.wandbLog (wandbConvertAll (flattenDict
          (popKey "epoch" [("epoch", Value.num 5), ("loss", Value.num 1)]).2 "" "/")) none]
    ∧ lookupKey "epoch"
        (popKey "epoch" [("epoch", Value.num 5), ("loss", Value.num 1)]).2 = none :=
  ⟨(epoch_step_extraction [("epoch", Value.num 5), ("loss", Value.num 1)] (by decide)).2.1,
   (epoch_step_extraction [("epoch", Value.num 5), ("loss", Value.num 1)] (by decide)).2.2⟩

/-- Claim C2: flattening recursively merges nested mappings into the top
level, renaming each nested key to `<parent_key>/<child_key>` with the fixed
separator `"/"` and preserving all leaf values.  The concrete example flattens
as stated; in general, the source flattening agrees with the spec-side
`specFlatten` (whose keys are, by construction, the separator-joined paths)
whenever the flattened keys do not collide — the spec leaves collisions
undefined — and `specFlatten` preserves exactly the leaf values in order. -/
theorem flatten_merges_nested_preserving_leaves :
    (flattenDict [("a", .dict [("b", .num 1), ("c", .dict [("d", .num 2)])])] "" "/"
      = [("a/b", .num 1), ("a/c/d", .num 2)])
    ∧ (∀ d : List (String × Value),
        (keys (specFlatten d "" "/")).Nodup →
        flattenDict d "" "/" = specFlatten d "" "/")
    ∧ (∀ d : List (String × Value),
        (specFlatten d "" "/").map Prod.snd = leafValues d) := by
  refine ⟨?_, fun d h => flattenDict_eq_specFlatten d "" "/" h,
    fun d => specFlatten_map_snd d "" "/"⟩
  simp [flattenDict, flattenGo, dictInsert, dictUpdate, keys, joinKey]

/-- Witness for claim C2 at a concrete nested entry. -/
theorem flatten_merges_nested_preserving_leaves_witness :
    flattenDict [("x", Value.dict [("y", Value.num 3)]), ("z", Value.num 4)] "" "/"
      = specFlatten [("x", Value.dict [("y", Value.num 3)]), ("z", Value.num 4)] "" "/" :=
  flatten_merges_nested_preserving_leaves.2.1
    [("x", Value.dict [("y", Value.num 3)]), ("z", Value.num 4)]
    (by simp [specFlatten, joinKey, keys])

/-- Claim C3: constructing the unified logger with a backend selector other
than `"wandb"` or `"tensorboard"` fails immediately with the configuration
error, and the effect trace is empty — no login happens and no backend logger
object is constructed before the failure. -/
theorem init_unknown_backend_fails (b : String)
    (h1 : b ≠ "wandb") (h2 : b ≠ "tensorboard") :
    UnifiedLogger.init b = ([], .error ("Unsupported backend: " ++ b)) := by
  simp [UnifiedLogger.init, h1, h2]

/-- Witness for claim C3 at the concrete selector `"mlflow"`. -/
theorem init_unknown_backend_fails_witness :
    UnifiedLogger.init "mlflow" = ([], .error ("Unsupported backend: " ++ "mlflow")) :=
  init_unknown_backend_fails "mlflow" (by decide) (by decide)

/-- Claim C4: on the tensorboard backend, logging `[("loss", 0.42)]` results
in exactly one `add_scalar` call with tag `"loss"`, value `0.42` and no other
backend calls; in general every numeric non-string scalar leaf is dispatched
to `add_scalar`. -/
theorem tb_scalar_dispatch :
    (UnifiedExperiment.log ⟨0, "tensorboard"⟩ [("loss", Value.num 0.42)]).1
      = [Call.tbAddScalar "loss" (Value.num 0.42) none]
    ∧ ∀ (tag : String) (x : ℚ) (step : Option Value),
        tbDispatch tag (Value.num x) step = [Call.tbAddScalar tag (Value.num x) step] := by
  constructor
  · simp [UnifiedExperiment.log, popKey, flattenDict, flattenGo, dictInsert, keys,
      joinKey, tbDispatchAll, tbDispatch, npIsScalar, Value.isStr]
  · intro tag x step
    simp [tbDispatch, npIsScalar, Value.isStr]

/-- Claim C5: on the tensorboard backend an unrecognized leaf such as a string
produces zero backend calls and no error; in general every string leaf is
skipped, and in an entry mixing recognized and unrecognized leaves the
recognized ones are still emitted with no aggregate error. -/
theorem tb_unsupported_type_skip :
    (UnifiedExperiment.log ⟨0, "tensorboard"⟩ [("note", Value.str "hello")]).1 = []
    ∧ (∀ (tag s : String) (step : Option Value), tbDispatch tag (Value.str s) step = [])
    ∧ (UnifiedExperiment.log ⟨0, "tensorboard"⟩
        [("loss", Value.num 1), ("note", Value.str "hello")]).1
      = [Call.tbAddScalar "loss" (Value.num 1) none] := by
  refine ⟨?_, ?_, ?_⟩
  · simp [UnifiedExperiment.log, popKey, flattenDict, flattenGo, dictInsert, keys,
      joinKey, tbDispatchAll, tbDispatch, npIsScalar, Value.isStr]
  · intro tag s step
    simp [tbDispatch, npIsScalar, Value.isStr]
  · simp [UnifiedExperiment.log, popKey, flattenDict, flattenGo, dictInsert, keys,
      joinKey, tbDispatchAll, tbDispatch, npIsScalar, Value.isStr]

/-- Claim C6: for every params argument, `log_hyperparams` produces zero
backend calls on the tensorboard backend and exactly one forwarded
hyperparameter-logging call on the wandb backend. -/
theorem log_hyperparams_dispatch (params : List (String × Value)) :
    (UnifiedLogger.init "tensorboard").2.map (fun st => (st.log_hyperparams params).2)
      = .ok []
    ∧ (UnifiedLogger.init "wandb").2.map (fun st => (st.log_hyperparams params).2)
      = .ok [Call.loggerLogHyperparams params] := by
  constructor <;> simp [UnifiedLogger.init, UnifiedLogger.log_hyperparams, Except.map]

/-- Claim C7: `close()` triggers exactly one `wandb.finish()` call on the
wandb backend and zero backend calls on the tensorboard backend. -/
theorem close_dispatch :
    (UnifiedLogger.init "wandb").2.map (fun st => st.close.2) = .ok [Call.wandbFinish]
    ∧ (UnifiedLogger.init "tensorboard").2.map (fun st => st.close.2) = .ok [] := by
  constructor <;> simp [UnifiedLogger.init, UnifiedLogger.close, Except.map]

/-- Claim C8: for every flat mapping (no nested dictionaries among its values,
and distinct keys as in every Python dictionary), flattening returns the
mapping unchanged. -/
theorem flatten_identity_on_flat (d : List (String × Value))
    (hflat : ∀ p ∈ d, Value.isDict p.2 = false) (hnd : (keys d).Nodup) :
    flattenDict d "" "/" = d := by
  have hs : specFlatten d "" "/" = d := specFlatten_of_flat "/" d hflat
  rw [flattenDict_eq_specFlatten d "" "/" (by rw [hs]; exact hnd), hs]

/-- Witness for claim C8 at a concrete flat mapping. -/
theorem flatten_identity_on_flat_witness :
    flattenDict [("a", Value.num 1), ("note", Value.str "hi")] "" "/"
      = [("a", Value.num 1), ("note", Value.str "hi")] :=
  flatten_identity_on_flat [("a", Value.num 1), ("note", Value.str "hi")]
    (by decide) (by decide)

/-- Claim C9: the backend selector is fixed at construction (`init` with a
recognized selector stores exactly that selector) and no subsequent operation
(`log`, `log_hyperparams`, `log_metrics`, `save`, `close`) changes the logger
state at all, so dispatch is determined by the construction-time selector for
the adapter's whole lifetime. -/
theorem backend_fixed_after_construction (st : UnifiedLogger)
    (data params metrics : List (String × Value)) (step : Option Value) :
    ((st.log data).1 = st ∧ (st.log_hyperparams params).1 = st
      ∧ (st.log_metrics metrics step).1 = st ∧ st.save.1 = st ∧ st.close.1 = st)
    ∧ ((UnifiedLogger.init "wandb").2.map (fun s => s.backend) = .ok "wandb"
      ∧ (UnifiedLogger.init "tensorboard").2.map (fun s => s.backend)
          = .ok "tensorboard") :=
  ⟨⟨rfl, rfl, rfl, rfl, rfl⟩, by constructor <;> simp [UnifiedLogger.init, Except.map]⟩

/-- Claim C10: `log(entry)` mutates the caller's mapping exactly by removing
the top-level `"epoch"` binding: afterwards `"epoch"` is absent, every other
top-level key is still bound to the same value, and when `"epoch"` was absent
the caller's mapping is unchanged. -/
theorem log_mutates_caller_only_epoch (backend : String) (eid : Nat)
    (d : List (String × Value)) (hnd : (keys d).Nodup) :
    lookupKey "epoch" (UnifiedExperiment.log ⟨eid, backend⟩ d).2 = none
    ∧ (∀ k, k ≠ "epoch" →
        lookupKey k (UnifiedExperiment.log ⟨eid, backend⟩ d).2 = lookupKey k d)
    ∧ (lookupKey "epoch" d = none → (UnifiedExperiment.log ⟨eid, backend⟩ d).2 = d) := by
  have hsnd : (UnifiedExperiment.log ⟨eid, backend⟩ d).2 = (popKey "epoch" d).2 := by
    simp [UnifiedExperiment.log]
  rw [hsnd]
  exact ⟨popKey_snd_lookup_self "epoch" d hnd,
    fun k hk => popKey_snd_lookup_other "epoch" k hk d,
    fun h => popKey_snd_of_absent "epoch" d h⟩

/-- Witness for claim C10 at the concrete entry `[("epoch", 5), ("loss", 1)]`
on the tensorboard backend. -/
theorem log_mutates_caller_only_epoch_witness :
    lookupKey "epoch"
      (UnifiedExperiment.log ⟨0, "tensorboard"⟩
        [("epoch", Value.num 5), ("loss", Value.num 1)]).2 = none
    ∧ lookupKey "loss"
        (UnifiedExperiment.log ⟨0, "tensorboard"⟩
          [("epoch", Value.num 5), ("loss", Value.num 1)]).2
      = lookupKey "loss" [("epoch", Value.num 5), ("loss", Value.num 1)] :=
  ⟨(log_mutates_caller_only_epoch "tensorboard" 0 _ (by decide)).1,
   (log_mutates_caller_only_epoch "tensorboard" 0 _ (by decide)).2.1 "loss" (by decide)⟩

end TemplateLogging
